import Mathlib

/-!
Verification of the WACC calculator core against its specification.

The repository has three Python source files:
* `wacc_module.py` — `calculate_wacc` with an explicit zero-total guard,
  returning a dictionary of echoed inputs, weights rounded to 4 decimal
  places and the WACC percentage rounded to 2 decimal places;
* `wacc_function.py` — `calculate_cost_of_equity` (direct / CAPM / Gordon)
  and an unguarded `calculate_wacc` returning the rounded WACC percentage;
* `app.py` — a Streamlit front-end whose computational part consists of
  `compute_weighted_kd_from_tranches`, module-level weight computation
  (`wE`, `wD`) and the module-level WACC formula.

The embedding below models Python floats by rationals (`ℚ`), the Python
`round` builtin by round-half-to-even on rationals, and a raised Python
exception by `Except.error`.
-/

set_option autoImplicit false

namespace WaccCalc

/-- Round-half-to-even of a rational to the nearest integer, the tie-breaking
rule used by the Python builtin `round`. -/
def roundHalfEven (x : ℚ) : ℤ :=
  if Int.fract x < 1 / 2 then ⌊x⌋
  else if 1 / 2 < Int.fract x then ⌊x⌋ + 1
  else if ⌊x⌋ % 2 = 0 then ⌊x⌋ else ⌊x⌋ + 1

/-- Idealized model of the Python `round(x, n)` on rationals. -/
def pyRound (n : ℕ) (x : ℚ) : ℚ :=
  (roundHalfEven (x * 10 ^ n) : ℚ) / 10 ^ n

/-- Errors a Python call of the core can surface: the deliberate
`ValueError("Equity + Debt cannot be zero.")` raised by `wacc_module.py`,
the runtime `ZeroDivisionError` raised by an unguarded division, and the
`InvalidParameter` condition from the error taxonomy of the specification. -/
inductive PyError where
  | valueErrorZeroCapital
  | zeroDivisionError
  | invalidParameter
deriving Repr, DecidableEq

/-- The dictionary returned by `calculate_wacc` in `wacc_module.py`. -/
structure WaccModuleResult where
  equity_value : ℚ
  debt_value : ℚ
  cost_of_equity : ℚ
  cost_of_debt : ℚ
  tax_rate : ℚ
  equity_weight : ℚ
  debt_weight : ℚ
  wacc_percent : ℚ
deriving Repr, DecidableEq

/-- `wacc_module.py`, `calculate_wacc` (lines 9-49): raises
`ValueError` when `equity_value + debt_value == 0`, otherwise returns the
dictionary with weights rounded to 4 decimals and `wacc_percent`
rounded to 2 decimals. -/
def waccModule_calculate_wacc (equity_value debt_value cost_of_equity cost_of_debt
    tax_rate : ℚ) : Except PyError WaccModuleResult :=
  let total_value := equity_value + debt_value
  if total_value = 0 then
    .error .valueErrorZeroCapital
  else
    let w_e := equity_value / total_value
    let w_d := debt_value / total_value
    let wacc := w_e * cost_of_equity + w_d * cost_of_debt * (1 - tax_rate)
    .ok { equity_value := equity_value
          debt_value := debt_value
          cost_of_equity := cost_of_equity
          cost_of_debt := cost_of_debt
          tax_rate := tax_rate
          equity_weight := pyRound 4 w_e
          debt_weight := pyRound 4 w_d
          wacc_percent := pyRound 2 (wacc * 100) }

/-- The cost-of-equity method selector of `wacc_function.py`
(`method` plus the keyword arguments each branch reads). -/
inductive KeMethod where
  | direct (cost_of_equity : ℚ)
  | capm (risk_free_rate beta market_return : ℚ)
  | gordon (dividend_next price_now growth_rate : ℚ)
deriving Repr, DecidableEq

/-- `wacc_function.py`, `calculate_cost_of_equity` (lines 10-28).  The
Gordon branch divides by `price_now` with no guard; Python raises
`ZeroDivisionError` when it is zero, modelled as `Except.error`. -/
def calculate_cost_of_equity : KeMethod → Except PyError ℚ
  | .direct ke => .ok ke
  | .capm rf beta rm => .ok (rf + beta * (rm - rf))
  | .gordon d1 p0 g =>
    if p0 = 0 then .error .zeroDivisionError else .ok (d1 / p0 + g)

/-- `wacc_function.py`, `calculate_wacc` (lines 31-52): no zero-total
guard, so the division `equity_value / total_value` raises
`ZeroDivisionError` when `equity_value + debt_value == 0`; otherwise
returns `round(wacc * 100, 2)`. -/
def waccFunction_calculate_wacc (equity_value debt_value : ℚ) (method : KeMethod)
    (cost_of_debt tax_rate : ℚ) : Except PyError ℚ :=
  match calculate_cost_of_equity method with
  | .error e => .error e
  | .ok ke =>
    let total_value := equity_value + debt_value
    if total_value = 0 then
      .error .zeroDivisionError
    else
      let w_e := equity_value / total_value
      let w_d := debt_value / total_value
      .ok (pyRound 2 ((w_e * ke + w_d * cost_of_debt * (1 - tax_rate)) * 100))

/-- One row of the `app.py` debt-tranche table.  `none` in a numeric
column models a non-numeric entry (`pd.to_numeric(..., errors="coerce")`
turns it into NaN, then `fillna(0.0)` into `0.0`); `none` in the
tax-shield column models a missing flag (`fillna(True)`). -/
structure Tranche where
  marketValue : Option ℚ
  rate : Option ℚ
  taxShield : Option Bool
deriving Repr, DecidableEq

/-- Market value of a tranche row after the coercion in `app.py`. -/
def trancheMV (t : Tranche) : ℚ := t.marketValue.getD 0

/-- Rate of a tranche row after the coercion in `app.py`. -/
def trancheRate (t : Tranche) : ℚ := t.rate.getD 0

/-- Tax-shield flag of a tranche row after the `fillna(True)` in `app.py`. -/
def trancheShield (t : Tranche) : Bool := t.taxShield.getD true

/-- `app.py`, `compute_weighted_kd_from_tranches` (lines 109-135):
returns `(pre_tax_kd, after_tax_kd, D_total)`; `(0, 0, 0)` when the
table is `None`, empty, or its market values sum to a non-positive
total.  The per-row tax shield multiplies by `1 - tax_rate_pct / 100`
only where the flag of the row is true. -/
def compute_weighted_kd_from_tranches (df : Option (List Tranche))
    (tax_rate_pct : ℚ) : ℚ × ℚ × ℚ :=
  match df with
  | none => (0, 0, 0)
  | some rows =>
    if rows.isEmpty then (0, 0, 0)
    else
      let total := (rows.map trancheMV).sum
      if total ≤ 0 then (0, 0, 0)
      else
        let pre := (rows.map (fun t => trancheMV t / total * trancheRate t)).sum
        let post := (rows.map (fun t => trancheMV t / total * trancheRate t *
          (if trancheShield t then 1 - tax_rate_pct / 100 else 1))).sum
        (pre, post, total)

/-- `app.py`, lines 152-154: `V = E + D`, `wE = E/V if V > 0 else 0.0`,
`wD = D/V if V > 0 else 0.0`.  Returns the pair `(wE, wD)`. -/
def appWeights (E D : ℚ) : ℚ × ℚ :=
  let V := E + D
  (if 0 < V then E / V else 0, if 0 < V then D / V else 0)

/-- `app.py`, line 161: the single-rate WACC
`wE * (ke_percent/100) + wD * (kd_percent_pre_tax/100) * (1 - tax_rate/100)`
(all rate inputs in percent). -/
def appWaccSingle (E D ke_percent kd_percent_pre_tax tax_rate : ℚ) : ℚ :=
  let w := appWeights E D
  w.1 * (ke_percent / 100) + w.2 * (kd_percent_pre_tax / 100) * (1 - tax_rate / 100)

/-- `app.py`, lines 138-159 with `D_mode = "Build from tranches"` and
`kd_mode = "From tranches"`: `D` is the tranche total, and the WACC uses
the row-level after-tax effective rate with no further `(1 - T)` factor:
`wE * (ke_percent/100) + wD * (kd_percent_after_tax_effective/100)`. -/
def appWaccFromTranches (E ke_percent : ℚ) (df : Option (List Tranche))
    (tax_rate : ℚ) : ℚ :=
  let r := compute_weighted_kd_from_tranches df tax_rate
  let w := appWeights E r.2.2
  w.1 * (ke_percent / 100) + w.2 * (r.2.1 / 100)

/-- `app.py`, line 95 (Gordon branch):
`ke_percent = (D1 / max(P0, 1e-9)) * 100.0 + g_percent` — the division is
clamped to an epsilon of `1e-9`, so a zero price never reaches it. -/
def appGordonKe (D1 P0 g_percent : ℚ) : ℚ :=
  D1 / max P0 (1 / 10 ^ 9) * 100 + g_percent

/-- Modelled from the spec: the repository has no redeemable-debt cost
function under `src/` (the `redeemable_debt` kind of the Component Cost Engine
exists only in the specification, §3 table and §4.1).  Formula:
`((coupon_rate×100) + (redeem_value_per_100 − price_per_100)/years) /
((redeem_value_per_100 + price_per_100)/2) × (1 − tax_rate)`, failing
with `InvalidParameter` when `years_to_redemption ≤ 0` or
`redeem_value_per_100 + price_per_100 = 0`. -/
def redeemable_debt_cost (coupon_rate redeem_value_per_100 price_per_100
    years_to_redemption tax_rate : ℚ) : Except PyError ℚ :=
  if years_to_redemption ≤ 0 then .error .invalidParameter
  else if redeem_value_per_100 + price_per_100 = 0 then .error .invalidParameter
  else .ok ((coupon_rate * 100 + (redeem_value_per_100 - price_per_100) / years_to_redemption) /
    ((redeem_value_per_100 + price_per_100) / 2) * (1 - tax_rate))

/-! ### Arithmetic facts about the round-half-to-even model -/

theorem roundHalfEven_intCast (n : ℤ) : roundHalfEven (n : ℚ) = n := by
  simp [roundHalfEven, Int.fract_intCast]

theorem roundHalfEven_nonneg {x : ℚ} (h : 0 ≤ x) : 0 ≤ roundHalfEven x := by
  have hf : (0 : ℤ) ≤ ⌊x⌋ := Int.floor_nonneg.mpr h
  unfold roundHalfEven
  split_ifs <;> omega

theorem roundHalfEven_le_int {x : ℚ} {N : ℤ} (h : x ≤ (N : ℚ)) :
    roundHalfEven x ≤ N := by
  have hfl : ⌊x⌋ ≤ N := by simpa using Int.floor_le_floor h
  have hx : (⌊x⌋ : ℚ) + Int.fract x = x := Int.floor_add_fract x
  unfold roundHalfEven
  split_ifs with ha hb hc
  · exact hfl
  · have hh : (1 : ℚ) / 2 ≤ Int.fract x := le_of_not_lt ha
    have h2 : (⌊x⌋ : ℚ) < (N : ℚ) := by linarith
    have h3 : ⌊x⌋ < N := by exact_mod_cast h2
    omega
  · exact hfl
  · have hh : (1 : ℚ) / 2 ≤ Int.fract x := le_of_not_lt ha
    have h2 : (⌊x⌋ : ℚ) < (N : ℚ) := by linarith
    have h3 : ⌊x⌋ < N := by exact_mod_cast h2
    omega

theorem roundHalfEven_le_add_half (x : ℚ) : (roundHalfEven x : ℚ) ≤ x + 1 / 2 := by
  have hx : (⌊x⌋ : ℚ) + Int.fract x = x := Int.floor_add_fract x
  have h0 := Int.fract_nonneg x
  have h1 := Int.fract_lt_one x
  unfold roundHalfEven
  split_ifs with ha hb hc
  · linarith
  · push_cast; linarith [le_of_not_lt ha]
  · linarith
  · push_cast; linarith [le_of_not_lt ha]

theorem sub_half_le_roundHalfEven (x : ℚ) : x - 1 / 2 ≤ (roundHalfEven x : ℚ) := by
  have hx : (⌊x⌋ : ℚ) + Int.fract x = x := Int.floor_add_fract x
  have h0 := Int.fract_nonneg x
  have h1 := Int.fract_lt_one x
  unfold roundHalfEven
  split_ifs with ha hb hc
  · linarith
  · push_cast; linarith
  · linarith [le_of_not_lt hb]
  · push_cast; linarith [le_of_not_lt hb]

/-- Round-half-to-even commutes with the reflection `x ↦ N - x` about an even
integer `N`: the two rounded values always add up to exactly `N`.  This is the
reason the 4-decimal rounded weights of `wacc_module.py` still sum to one. -/
theorem roundHalfEven_add_compl {N : ℤ} (hN : N % 2 = 0) (x : ℚ) :
    roundHalfEven x + roundHalfEven ((N : ℚ) - x) = N := by
  rcases eq_or_ne (Int.fract x) 0 with h0 | h0
  · obtain ⟨m, hm⟩ : ∃ m : ℤ, x = (m : ℚ) := ⟨⌊x⌋, by
      have hfa := Int.floor_add_fract x
      rw [h0, add_zero] at hfa
      exact hfa.symm⟩
    subst hm
    have hc : ((N : ℚ) - (m : ℚ)) = ((N - m : ℤ) : ℚ) := by push_cast; ring
    rw [hc, roundHalfEven_intCast, roundHalfEven_intCast]
    omega
  · have hsub : (N : ℚ) - x = (N : ℚ) + (-x) := by ring
    have hfr : Int.fract ((N : ℚ) - x) = 1 - Int.fract x := by
      rw [hsub, Int.fract_int_add, Int.fract_neg h0]
    have hfly : (⌊(N : ℚ) - x⌋ : ℚ) + Int.fract ((N : ℚ) - x) = (N : ℚ) - x :=
      Int.floor_add_fract _
    have hflx : (⌊x⌋ : ℚ) + Int.fract x = x := Int.floor_add_fract x
    have hfl : ⌊(N : ℚ) - x⌋ = N - ⌊x⌋ - 1 := by
      have hq : (⌊(N : ℚ) - x⌋ : ℚ) = ((N - ⌊x⌋ - 1 : ℤ) : ℚ) := by
        rw [hfr] at hfly
        push_cast
        linarith
      exact_mod_cast hq
    have hfr0 := Int.fract_nonneg x
    have hfr1 := Int.fract_lt_one x
    unfold roundHalfEven
    rw [hfr, hfl]
    split_ifs <;> first | omega | (exfalso; linarith)

theorem pyRound4_add_compl (a : ℚ) : pyRound 4 a + pyRound 4 (1 - a) = 1 := by
  have harg : (1 - a) * 10 ^ 4 = ((10000 : ℤ) : ℚ) - a * 10 ^ 4 := by push_cast; ring
  have key := roundHalfEven_add_compl (N := 10000) (by decide) (a * 10 ^ 4)
  unfold pyRound
  rw [harg]
  have hcast : (roundHalfEven (a * 10 ^ 4) : ℚ) +
      (roundHalfEven (((10000 : ℤ) : ℚ) - a * 10 ^ 4) : ℚ) = ((10000 : ℤ) : ℚ) := by
    exact_mod_cast key
  rw [div_add_div_same, hcast]
  norm_num

theorem pyRound_nonneg {n : ℕ} {x : ℚ} (h : 0 ≤ x) : 0 ≤ pyRound n x := by
  unfold pyRound
  apply div_nonneg _ (by positivity)
  exact_mod_cast roundHalfEven_nonneg (by positivity)

theorem pyRound_le_one {n : ℕ} {x : ℚ} (h : x ≤ 1) : pyRound n x ≤ 1 := by
  unfold pyRound
  rw [div_le_one (by positivity)]
  have harg : x * 10 ^ n ≤ (((10 : ℤ) ^ n : ℤ) : ℚ) := by
    push_cast
    have h10 : (0 : ℚ) ≤ 10 ^ n := by positivity
    nlinarith
  exact_mod_cast roundHalfEven_le_int harg

theorem pyRound_le_add (n : ℕ) (x : ℚ) : pyRound n x ≤ x + 1 / (2 * 10 ^ n) := by
  unfold pyRound
  rw [div_le_iff₀ (by positivity : (0 : ℚ) < 10 ^ n)]
  have h2 : (x + 1 / (2 * 10 ^ n)) * 10 ^ n = x * 10 ^ n + 1 / 2 := by
    field_simp
    ring
  rw [h2]
  exact roundHalfEven_le_add_half (x * 10 ^ n)

theorem sub_le_pyRound (n : ℕ) (x : ℚ) : x - 1 / (2 * 10 ^ n) ≤ pyRound n x := by
  unfold pyRound
  rw [le_div_iff₀ (by positivity : (0 : ℚ) < 10 ^ n)]
  have h2 : (x - 1 / (2 * 10 ^ n)) * 10 ^ n = x * 10 ^ n - 1 / 2 := by
    field_simp
    ring
  rw [h2]
  exact sub_half_le_roundHalfEven (x * 10 ^ n)

/-- A weighted average with nonnegative weights summing to one lies between
the two values averaged. -/
theorem weighted_avg_between {a b p q : ℚ} (ha : 0 ≤ a) (hb : 0 ≤ b)
    (hab : a + b = 1) : min p q ≤ a * p + b * q ∧ a * p + b * q ≤ max p q := by
  rcases le_total p q with h | h
  · rw [min_eq_left h, max_eq_right h]
    have h1 : 0 ≤ b * (q - p) := mul_nonneg hb (by linarith)
    have h2 : 0 ≤ a * (q - p) := mul_nonneg ha (by linarith)
    constructor
    · have e1 : a * p + b * q = (a + b) * p + b * (q - p) := by ring
      rw [e1, hab]; linarith
    · have e2 : a * p + b * q = (a + b) * q - a * (q - p) := by ring
      rw [e2, hab]; linarith
  · rw [min_eq_right h, max_eq_left h]
    have h1 : 0 ≤ a * (p - q) := mul_nonneg ha (by linarith)
    have h2 : 0 ≤ b * (p - q) := mul_nonneg hb (by linarith)
    constructor
    · have e1 : a * p + b * q = (a + b) * q + a * (p - q) := by ring
      rw [e1, hab]; linarith
    · have e2 : a * p + b * q = (a + b) * p - b * (p - q) := by ring
      rw [e2, hab]; linarith

/-! ### Unfolding equations for the two `calculate_wacc` variants -/

theorem waccModule_ok (E D ke kd t : ℚ) (h : ¬ (E + D = 0)) :
    waccModule_calculate_wacc E D ke kd t =
      .ok { equity_value := E, debt_value := D, cost_of_equity := ke,
            cost_of_debt := kd, tax_rate := t,
            equity_weight := pyRound 4 (E / (E + D)),
            debt_weight := pyRound 4 (D / (E + D)),
            wacc_percent :=
              pyRound 2 ((E / (E + D) * ke + D / (E + D) * kd * (1 - t)) * 100) } := by
  simp only [waccModule_calculate_wacc]
  rw [if_neg h]

theorem waccFunction_ok (E D ke kd t : ℚ) (h : ¬ (E + D = 0)) :
    waccFunction_calculate_wacc E D (.direct ke) kd t =
      .ok (pyRound 2 ((E / (E + D) * ke + D / (E + D) * kd * (1 - t)) * 100)) := by
  simp only [waccFunction_calculate_wacc, calculate_cost_of_equity]
  rw [if_neg h]

/-! ### Claim theorems -/

/-- C1 counterexample: at `E = 1, D = 1, ke = 0.14, kd = 0.055, t = 0.25` the
formula value is `9.0625` but `calculate_wacc` returns `9.06`, so the unqualified claimed equality `wacc_percent = 100 * (E/(E+D)·ke + D/(E+D)·kd·(1−t))`
fails on the code. -/
theorem C1_counterexample :
    (waccModule_calculate_wacc 1 1 (14/100) (55/1000) (25/100)).map
      (fun r => r.wacc_percent) = .ok (906/100) ∧
    (906 : ℚ)/100 ≠
      100 * (1 / (1 + 1) * (14/100) + 1 / (1 + 1) * (55/1000) * (1 - 25/100)) := by
  constructor
  · simp only [waccModule_calculate_wacc, pyRound, roundHalfEven, Int.fract, Except.map]
    norm_num
  · norm_num

/-- C1 (amended): for every `E ≥ 0`, `D ≥ 0` with `E + D > 0` and tax rate
`t ∈ [0,1]`, both `calculate_wacc` variants return the claimed formula value
`100 * (E/(E+D)·ke + D/(E+D)·kd·(1−t))` rounded half-to-even to 2 decimal
places; in particular with `ke = 0.14` (obtained from CAPM with `rf = 0.05`,
`rm = 0.11`, `beta = 1.5`), `E = 120000`, `D = 80000`, `kd = 0.055`,
`t = 0.25`, the formula value is exactly `10.05` and both variants return it. -/
theorem C1_wacc_formula_rounded (E D ke kd t : ℚ) (_hE : 0 ≤ E) (_hD : 0 ≤ D)
    (hV : 0 < E + D) (_ht0 : 0 ≤ t) (_ht1 : t ≤ 1) :
    (waccModule_calculate_wacc E D ke kd t).map (fun r => r.wacc_percent) =
      .ok (pyRound 2 (100 * (E / (E + D) * ke + D / (E + D) * kd * (1 - t)))) ∧
    waccFunction_calculate_wacc E D (.direct ke) kd t =
      .ok (pyRound 2 (100 * (E / (E + D) * ke + D / (E + D) * kd * (1 - t)))) ∧
    calculate_cost_of_equity (.capm (5/100) (3/2) (11/100)) = .ok (14/100) ∧
    (waccModule_calculate_wacc 120000 80000 (14/100) (55/1000) (25/100)).map
      (fun r => r.wacc_percent) = .ok (1005/100) ∧
    waccFunction_calculate_wacc 120000 80000 (.capm (5/100) (3/2) (11/100))
      (55/1000) (25/100) = .ok (1005/100) ∧
    (1005 : ℚ)/100 = 100 * (120000 / (120000 + 80000) * (14/100) +
      80000 / (120000 + 80000) * (55/1000) * (1 - 25/100)) := by
  have hne : ¬ (E + D = 0) := ne_of_gt hV
  have hcomm : (E / (E + D) * ke + D / (E + D) * kd * (1 - t)) * 100 =
      100 * (E / (E + D) * ke + D / (E + D) * kd * (1 - t)) := by ring
  refine ⟨?_, ?_, ?_, ?_, ?_, by norm_num⟩
  · rw [waccModule_ok E D ke kd t hne]
    simp only [Except.map]
    rw [hcomm]
  · rw [waccFunction_ok E D ke kd t hne]
    rw [hcomm]
  · norm_num [calculate_cost_of_equity]
  · simp only [waccModule_calculate_wacc, pyRound, roundHalfEven, Int.fract, Except.map]
    norm_num
  · simp only [waccFunction_calculate_wacc, calculate_cost_of_equity, pyRound,
      roundHalfEven, Int.fract]
    norm_num

theorem C1_wacc_formula_rounded_witness :
    (waccModule_calculate_wacc 120000 80000 (14/100) (55/1000) (25/100)).map
      (fun r => r.wacc_percent) =
      .ok (pyRound 2 (100 * (120000 / (120000 + 80000) * (14/100) +
        80000 / (120000 + 80000) * (55/1000) * (1 - 25/100)))) :=
  (C1_wacc_formula_rounded 120000 80000 (14/100) (55/1000) (25/100)
    (by norm_num) (by norm_num) (by norm_num) (by norm_num) (by norm_num)).1

/-- C2: evaluation of all three implementations at total market value 0.
`app.py` (lines 152-154) silently computes `wE = wD = 0.0` and a WACC of
`0.0` instead of surfacing a ZeroCapitalStructure condition; the
`wacc_function.py` variant only fails with an unhandled `ZeroDivisionError`
at the weight division itself; only `wacc_module.py` raises the deliberate
`ValueError` before computing any weight. -/
theorem C2_zero_capital_evaluation :
    appWeights 0 0 = (0, 0) ∧
    appWaccSingle 0 0 10 (11/2) 25 = 0 ∧
    waccModule_calculate_wacc 0 0 (1/10) (11/200) (1/4) =
      .error .valueErrorZeroCapital ∧
    waccFunction_calculate_wacc 0 0 (.direct (1/10)) (11/200) (1/4) =
      .error .zeroDivisionError := by
  refine ⟨?_, ?_, ?_, ?_⟩
  · norm_num [appWeights]
  · norm_num [appWaccSingle, appWeights]
  · norm_num [waccModule_calculate_wacc]
  · norm_num [waccFunction_calculate_wacc, calculate_cost_of_equity]

/-- C3: for every tranche table with positive total market value and tax rate
`T` (in percent), `compute_weighted_kd_from_tranches` returns the pre-tax cost
`Σ (wᵢ × rᵢ)`, the after-tax effective cost
`Σ (wᵢ × rᵢ × (1 − T/100 if the shield flag of the tranche is true, else 1))` and
the total; the concrete scenario `(mv=40, rate=6, shield), (mv=60, rate=5.2,
shield)` at `T = 25` gives `(5.52, 4.14, 100)`, and the top-level WACC built
from tranches uses the after-tax rate with no further `(1 − T)` factor: with
the whole structure being this debt, `wacc × 100 = 4.14` exactly. -/
theorem C3_tranche_aggregation (rows : List Tranche) (T : ℚ)
    (hpos : 0 < (rows.map trancheMV).sum) :
    compute_weighted_kd_from_tranches (some rows) T =
      ((rows.map (fun tr => trancheMV tr / (rows.map trancheMV).sum *
        trancheRate tr)).sum,
       (rows.map (fun tr => trancheMV tr / (rows.map trancheMV).sum *
        trancheRate tr * (if trancheShield tr then 1 - T / 100 else 1))).sum,
       (rows.map trancheMV).sum) ∧
    compute_weighted_kd_from_tranches
      (some [⟨some 40, some 6, some true⟩, ⟨some 60, some (26/5), some true⟩]) 25 =
      (552/100, 414/100, 100) ∧
    appWaccFromTranches 0 0
      (some [⟨some 40, some 6, some true⟩, ⟨some 60, some (26/5), some true⟩]) 25 *
      100 = 414/100 := by
  refine ⟨?_, ?_, ?_⟩
  · have hne : rows.isEmpty = false := by
      cases rows with
      | nil => simp at hpos
      | cons a l => rfl
    simp only [compute_weighted_kd_from_tranches, hne, Bool.false_eq_true, if_false]
    rw [if_neg (not_le.mpr hpos)]
  · simp only [compute_weighted_kd_from_tranches, trancheMV, trancheRate, trancheShield,
      List.map, List.sum, List.isEmpty, Option.getD]
    norm_num
  · simp only [appWaccFromTranches, compute_weighted_kd_from_tranches, appWeights,
      trancheMV, trancheRate, trancheShield, List.map, List.sum, List.isEmpty, Option.getD]
    norm_num

theorem C3_tranche_aggregation_witness :
    compute_weighted_kd_from_tranches (some [⟨some 40, some 6, some true⟩]) 25 =
      ((([⟨some 40, some 6, some true⟩] : List Tranche).map (fun tr =>
         trancheMV tr / (([⟨some 40, some 6, some true⟩] : List Tranche).map
           trancheMV).sum * trancheRate tr)).sum,
       (([⟨some 40, some 6, some true⟩] : List Tranche).map (fun tr =>
         trancheMV tr / (([⟨some 40, some 6, some true⟩] : List Tranche).map
           trancheMV).sum * trancheRate tr *
           (if trancheShield tr then 1 - (25:ℚ) / 100 else 1))).sum,
       (([⟨some 40, some 6, some true⟩] : List Tranche).map trancheMV).sum) :=
  (C3_tranche_aggregation [⟨some 40, some 6, some true⟩] 25
    (by norm_num [trancheMV, List.map, List.sum])).1

/-- C4: the redeemable-debt cost function returns
`((coupon_rate×100) + (redeem − price)/years) / ((redeem + price)/2) × (1 − tax)`
for every valid input (`years > 0`, `redeem + price ≠ 0`, `tax ∈ [0,1]`); at
`coupon = 0.09, redeem = 100, price = 96, years = 4, tax = 0.30` the after-tax
cost is `1/14` (as a decimal), i.e. `7.142857...%`, which rounds to `7.1429`
at 4 decimals and `7.14` at 2 decimals. -/
theorem C4_redeemable_debt_formula (c R P y t : ℚ) (hy : 0 < y) (hRP : R + P ≠ 0)
    (_ht0 : 0 ≤ t) (_ht1 : t ≤ 1) :
    redeemable_debt_cost c R P y t =
      .ok ((c * 100 + (R - P) / y) / ((R + P) / 2) * (1 - t)) ∧
    redeemable_debt_cost (9/100) 100 96 4 (3/10) = .ok (1/14) ∧
    pyRound 4 (100 * (1/14)) = 71429/10000 ∧
    pyRound 2 (100 * (1/14)) = 714/100 := by
  refine ⟨?_, ?_, ?_, ?_⟩
  · simp only [redeemable_debt_cost]
    rw [if_neg (not_le.mpr hy), if_neg hRP]
  · norm_num [redeemable_debt_cost]
  · simp only [pyRound, roundHalfEven, Int.fract]
    norm_num
  · simp only [pyRound, roundHalfEven, Int.fract]
    norm_num

theorem C4_redeemable_debt_formula_witness :
    redeemable_debt_cost (9/100) 100 96 4 (3/10) =
      .ok (((9:ℚ)/100 * 100 + (100 - 96) / 4) / ((100 + 96) / 2) * (1 - 3/10)) :=
  (C4_redeemable_debt_formula (9/100) 100 96 4 (3/10) (by norm_num) (by norm_num)
    (by norm_num) (by norm_num)).1

/-- C5: a current price of 0 in the Gordon cost-of-equity computation is
either surfaced as a division-undefined error or clamped: the
`wacc_function.py` Gordon branch fails with `ZeroDivisionError` at
`price_now = 0` (and divides normally otherwise), and the `app.py` Gordon
branch clamps the denominator to `1e-9`, returning the finite value
`D1 × 10⁹ × 100 + g` instead of an infinity. -/
theorem C5_gordon_zero_price_guard (d1 g D1 gp p0 : ℚ) (hp : p0 ≠ 0) :
    calculate_cost_of_equity (.gordon d1 0 g) = .error .zeroDivisionError ∧
    calculate_cost_of_equity (.gordon d1 p0 g) = .ok (d1 / p0 + g) ∧
    appGordonKe D1 0 gp = D1 * 10 ^ 9 * 100 + gp := by
  refine ⟨by norm_num [calculate_cost_of_equity], ?_, ?_⟩
  · simp only [calculate_cost_of_equity]
    rw [if_neg hp]
  · simp only [appGordonKe]
    rw [max_eq_right (by norm_num : (0:ℚ) ≤ 1 / 10 ^ 9)]
    rw [one_div, div_inv_eq_mul]

theorem C5_gordon_zero_price_guard_witness :
    calculate_cost_of_equity (.gordon 4 80 (2/100)) = .ok ((4:ℚ) / 80 + 2/100) :=
  (C5_gordon_zero_price_guard 4 (2/100) 0 0 80 (by norm_num)).2.1

/-- C6 counterexample: at `E = D = 50`, `ke = kd = 0.123456`, `t = 0` both
per-source cost rates are `12.3456 %`, yet the returned `wacc_percent` is the
rounded `12.35`, strictly above the maximum — the claimed inclusive bound
fails on the code because of the final 2-decimal rounding. -/
theorem C6_counterexample :
    (waccModule_calculate_wacc 50 50 (123456/1000000) (123456/1000000) 0).map
      (fun r => r.wacc_percent) = .ok (1235/100) ∧
    max (100 * ((123456:ℚ)/1000000)) (100 * ((123456:ℚ)/1000000) * (1 - 0)) <
      (1235:ℚ)/100 := by
  constructor
  · simp only [waccModule_calculate_wacc, pyRound, roundHalfEven, Int.fract, Except.map]
    norm_num
  · norm_num

/-- C6 (amended): for every valid capital structure (`E ≥ 0`, `D ≥ 0`,
`E + D > 0`) the returned `wacc_percent` lies between the minimum and the
maximum of the per-source cost rates (after-tax debt rate for the debt
source) widened by half a unit in the last rounded place, `0.005`; the
value before the final 2-decimal rounding lies between the extremes
exactly, being a convex combination of them. -/
theorem C6_wacc_between_extremes (E D ke kd t : ℚ) (hE : 0 ≤ E) (hD : 0 ≤ D)
    (hV : 0 < E + D) :
    ∀ r, waccModule_calculate_wacc E D ke kd t = .ok r →
      min (100 * ke) (100 * (kd * (1 - t))) - 1/200 ≤ r.wacc_percent ∧
      r.wacc_percent ≤ max (100 * ke) (100 * (kd * (1 - t))) + 1/200 := by
  intro r hr
  rw [waccModule_ok E D ke kd t (ne_of_gt hV)] at hr
  injection hr with hrec
  subst hrec
  dsimp only
  have hw0 : 0 ≤ E / (E + D) := div_nonneg hE hV.le
  have hv0 : 0 ≤ D / (E + D) := div_nonneg hD hV.le
  have hsum : E / (E + D) + D / (E + D) = 1 := by
    rw [div_add_div_same, div_self (ne_of_gt hV)]
  obtain ⟨hmin, hmax⟩ :=
    weighted_avg_between (p := 100 * ke) (q := 100 * (kd * (1 - t))) hw0 hv0 hsum
  have harg : E / (E + D) * (100 * ke) + D / (E + D) * (100 * (kd * (1 - t))) =
      (E / (E + D) * ke + D / (E + D) * kd * (1 - t)) * 100 := by ring
  rw [harg] at hmin hmax
  have h1 := sub_le_pyRound 2 ((E / (E + D) * ke + D / (E + D) * kd * (1 - t)) * 100)
  have h2 := pyRound_le_add 2 ((E / (E + D) * ke + D / (E + D) * kd * (1 - t)) * 100)
  have h200 : (1:ℚ) / (2 * 10 ^ 2) = 1/200 := by norm_num
  rw [h200] at h1 h2
  exact ⟨by linarith, by linarith⟩

theorem C6_wacc_between_extremes_witness :
    min (100 * ((14:ℚ)/100)) (100 * ((55:ℚ)/1000 * (1 - 25/100))) - 1/200 ≤
      (1005:ℚ)/100 ∧
    (1005:ℚ)/100 ≤ max (100 * ((14:ℚ)/100)) (100 * ((55:ℚ)/1000 * (1 - 25/100))) +
      1/200 :=
  C6_wacc_between_extremes 120000 80000 (14/100) (55/1000) (25/100)
    (by norm_num) (by norm_num) (by norm_num)
    { equity_value := 120000, debt_value := 80000, cost_of_equity := 14/100,
      cost_of_debt := 55/1000, tax_rate := 25/100,
      equity_weight := 6/10, debt_weight := 4/10, wacc_percent := 1005/100 }
    (by simp only [waccModule_calculate_wacc, pyRound, roundHalfEven, Int.fract]
        norm_num)

/-- C7: for every valid capital structure (`E ≥ 0`, `D ≥ 0`, `E + D > 0`)
the weights reported by `wacc_module.py` (rounded to 4 decimals) and by
`app.py` each lie in `[0,1]` and sum to 1 within `1e-9` (for the rounded
weights this holds because round-half-to-even makes the two roundings
cancel exactly). -/
theorem C7_weights_unit_interval_sum_one (E D ke kd t : ℚ) (hE : 0 ≤ E)
    (hD : 0 ≤ D) (hV : 0 < E + D) :
    (∀ r, waccModule_calculate_wacc E D ke kd t = .ok r →
      (0 ≤ r.equity_weight ∧ r.equity_weight ≤ 1) ∧
      (0 ≤ r.debt_weight ∧ r.debt_weight ≤ 1) ∧
      |r.equity_weight + r.debt_weight - 1| ≤ 1/10^9) ∧
    (0 ≤ (appWeights E D).1 ∧ (appWeights E D).1 ≤ 1) ∧
    (0 ≤ (appWeights E D).2 ∧ (appWeights E D).2 ≤ 1) ∧
    |(appWeights E D).1 + (appWeights E D).2 - 1| ≤ 1/10^9 := by
  have hw0 : 0 ≤ E / (E + D) := div_nonneg hE hV.le
  have hv0 : 0 ≤ D / (E + D) := div_nonneg hD hV.le
  have hw1 : E / (E + D) ≤ 1 := by
    rw [div_le_one hV]; linarith
  have hv1 : D / (E + D) ≤ 1 := by
    rw [div_le_one hV]; linarith
  have hsum : E / (E + D) + D / (E + D) = 1 := by
    rw [div_add_div_same, div_self (ne_of_gt hV)]
  constructor
  · intro r hr
    rw [waccModule_ok E D ke kd t (ne_of_gt hV)] at hr
    injection hr with hrec
    subst hrec
    dsimp only
    have hcompl : D / (E + D) = 1 - E / (E + D) := by linarith
    refine ⟨⟨pyRound_nonneg hw0, pyRound_le_one hw1⟩,
            ⟨pyRound_nonneg hv0, pyRound_le_one hv1⟩, ?_⟩
    rw [hcompl, pyRound4_add_compl]
    norm_num
  · simp only [appWeights, if_pos hV]
    refine ⟨⟨hw0, hw1⟩, ⟨hv0, hv1⟩, ?_⟩
    rw [hsum]
    norm_num

theorem C7_weights_unit_interval_sum_one_witness :
    |(appWeights 1 3).1 + (appWeights 1 3).2 - 1| ≤ (1:ℚ)/10^9 :=
  (C7_weights_unit_interval_sum_one 1 3 0 0 0 (by norm_num) (by norm_num)
    (by norm_num)).2.2.2

/-- C8 counterexample: with only equity positive (`E = 1, D = 0`) and
`ke = 0.123456`, the cost rate of the source is `12.3456 %` but `calculate_wacc`
returns `12.35`, so the claimed exact equality fails on the code. -/
theorem C8_counterexample :
    (waccModule_calculate_wacc 1 0 (123456/1000000) 0 0).map
      (fun r => r.wacc_percent) = .ok (1235/100) ∧
    (1235:ℚ)/100 ≠ 100 * ((123456:ℚ)/1000000) := by
  constructor
  · simp only [waccModule_calculate_wacc, pyRound, roundHalfEven, Int.fract, Except.map]
    norm_num
  · norm_num

/-- C8 (amended): when exactly one source has positive market value, both
`calculate_wacc` variants return the cost rate percentage of that source rounded
half-to-even to 2 decimal places (the only transformation applied): the
equity rate `100·ke` when `D = 0 < E`, the after-tax debt rate
`100·kd·(1−t)` when `E = 0 < D`. -/
theorem C8_single_source_rounded (E D ke kd t : ℚ) :
    (0 < E → D = 0 →
      (waccModule_calculate_wacc E D ke kd t).map (fun r => r.wacc_percent) =
        .ok (pyRound 2 (100 * ke)) ∧
      waccFunction_calculate_wacc E D (.direct ke) kd t =
        .ok (pyRound 2 (100 * ke))) ∧
    (E = 0 → 0 < D →
      (waccModule_calculate_wacc E D ke kd t).map (fun r => r.wacc_percent) =
        .ok (pyRound 2 (100 * (kd * (1 - t)))) ∧
      waccFunction_calculate_wacc E D (.direct ke) kd t =
        .ok (pyRound 2 (100 * (kd * (1 - t))))) := by
  constructor
  · intro hE hD
    subst hD
    have hne : ¬ (E + 0 = 0) := by rw [add_zero]; exact ne_of_gt hE
    have harg : (E / (E + 0) * ke + 0 / (E + 0) * kd * (1 - t)) * 100 = 100 * ke := by
      rw [add_zero, div_self (ne_of_gt hE), zero_div]
      ring
    constructor
    · rw [waccModule_ok E 0 ke kd t hne]
      simp only [Except.map]
      rw [harg]
    · rw [waccFunction_ok E 0 ke kd t hne]
      rw [harg]
  · intro hE hD
    subst hE
    have hne : ¬ ((0:ℚ) + D = 0) := by rw [zero_add]; exact ne_of_gt hD
    have harg : ((0:ℚ) / (0 + D) * ke + D / (0 + D) * kd * (1 - t)) * 100 =
        100 * (kd * (1 - t)) := by
      rw [zero_add, div_self (ne_of_gt hD), zero_div]
      ring
    constructor
    · rw [waccModule_ok 0 D ke kd t hne]
      simp only [Except.map]
      rw [harg]
    · rw [waccFunction_ok 0 D ke kd t hne]
      rw [harg]

theorem C8_single_source_rounded_witness :
    (waccModule_calculate_wacc 1 0 (7/100) 0 0).map (fun r => r.wacc_percent) =
      .ok (pyRound 2 (100 * ((7:ℚ)/100))) :=
  ((C8_single_source_rounded 1 0 (7/100) 0 0).1 (by norm_num) (by norm_num)).1

/-- C9: `compute_weighted_kd_from_tranches` returns exactly `(0, 0, 0)` —
and raises no error — for a `None` table, an empty table, and any table
whose market values sum to a non-positive total (strictly negative
included); non-numeric entries are coerced to `0.0` and a missing
tax-shield flag is treated as true, as the concrete table with one
non-numeric market value and one missing flag shows. -/
theorem C9_degenerate_tranches (T : ℚ) :
    compute_weighted_kd_from_tranches none T = (0, 0, 0) ∧
    compute_weighted_kd_from_tranches (some []) T = (0, 0, 0) ∧
    (∀ rows : List Tranche, (rows.map trancheMV).sum ≤ 0 →
      compute_weighted_kd_from_tranches (some rows) T = (0, 0, 0)) ∧
    compute_weighted_kd_from_tranches
      (some [⟨none, some 5, some true⟩, ⟨some 10, some 6, none⟩]) 50 =
      (6, 3, 10) := by
  refine ⟨rfl, rfl, ?_, ?_⟩
  · intro rows hle
    cases rows with
    | nil => rfl
    | cons a l =>
      simp only [compute_weighted_kd_from_tranches, List.isEmpty_cons,
        Bool.false_eq_true, if_false]
      rw [if_pos hle]
  · simp only [compute_weighted_kd_from_tranches, trancheMV, trancheRate,
      trancheShield, List.map, List.sum, List.isEmpty, Option.getD]
    norm_num

theorem C9_degenerate_tranches_witness :
    compute_weighted_kd_from_tranches (some [⟨some (-5), some 3, some true⟩]) 10 =
      (0, 0, 0) :=
  (C9_degenerate_tranches 10).2.2.1 [⟨some (-5), some 3, some true⟩]
    (by norm_num [trancheMV, List.map, List.sum])

/-- C10: on every successful call both `calculate_wacc` variants return the
WACC percentage rounded to exactly 2 decimal places, and the `wacc_module`
variant reports the weights rounded to 4 decimal places while echoing the
five input parameters unchanged; no unrounded WACC or weight reaches the
caller. -/
theorem C10_rounding_and_echo (E D ke kd t : ℚ) (h : E + D ≠ 0) :
    waccModule_calculate_wacc E D ke kd t =
      .ok { equity_value := E, debt_value := D, cost_of_equity := ke,
            cost_of_debt := kd, tax_rate := t,
            equity_weight := pyRound 4 (E / (E + D)),
            debt_weight := pyRound 4 (D / (E + D)),
            wacc_percent :=
              pyRound 2 ((E / (E + D) * ke + D / (E + D) * kd * (1 - t)) * 100) } ∧
    waccFunction_calculate_wacc E D (.direct ke) kd t =
      .ok (pyRound 2 ((E / (E + D) * ke + D / (E + D) * kd * (1 - t)) * 100)) :=
  ⟨waccModule_ok E D ke kd t h, waccFunction_ok E D ke kd t h⟩

theorem C10_rounding_and_echo_witness :
    waccModule_calculate_wacc 120000 80000 (14/100) (55/1000) (25/100) =
      .ok { equity_value := 120000, debt_value := 80000, cost_of_equity := 14/100,
            cost_of_debt := 55/1000, tax_rate := 25/100,
            equity_weight := pyRound 4 (120000 / (120000 + 80000)),
            debt_weight := pyRound 4 (80000 / (120000 + 80000)),
            wacc_percent := pyRound 2 ((120000 / (120000 + 80000) * (14/100) +
              80000 / (120000 + 80000) * (55/1000) * (1 - 25/100)) * 100) } :=
  (C10_rounding_and_echo 120000 80000 (14/100) (55/1000) (25/100) (by norm_num)).1

end WaccCalc
